import Mathlib

/-!
# Verification of `robotica/ler-serial.js`

Shallow embedding of the serial-to-HTTP forwarder script. The script reads
newline-delimited JSON from a serial port, enriches each decoded value with
`_ingested_at` / `_source` fields, and POSTs it to an HTTP endpoint with a
bounded linear-backoff retry policy; the serial connection is reopened in an
unbounded retry loop.

Modelling conventions:
* JavaScript objects are association lists `List (String × Json)`; the object
  literal `{...payload, _ingested_at: ..., _source: ...}` is embedded by
  `spreadFields` (own-enumerable-property semantics of the spread operator)
  followed by two `setKey` updates (later keys overwrite earlier ones).
* External oracles (`JSON.parse`, the serial `open` outcome, the HTTP
  transport) are parameters: `parse : String → Option Json`,
  `openOk : Nat → Bool`, `transport : Nat → HttpOutcome` (indexed by the
  attempt counter).
* Waiting (`sleep`) is recorded as data (wait durations / wait events), and
  the event loop of `ensureOpen` is observed through a fuel-bounded event
  trace.
* JSON numbers are carried as `Int`; no claim inspects numeric values.
-/

namespace LerSerial

/-- JSON values, as produced by `JSON.parse` on one input line. -/
inductive Json where
  | null
  | bool (b : Bool)
  | num (n : Int)
  | str (s : String)
  | arr (elems : List Json)
  | obj (fields : List (String × Json))

/-- Keys of a JS object rendered as an association list. -/
def keysOf (fs : List (String × Json)) : List String := fs.map Prod.fst

/-- Property read: first binding of key `k` (JS objects have unique keys,
so "first" is exact). -/
def getKey : List (String × Json) → String → Option Json
  | [], _ => none
  | (k', v) :: t, k => if k' = k then some v else getKey t k

/-- Effect of writing key `k` in an object literal after earlier entries
`fs`: a later entry with an existing key overwrites the value in place,
otherwise the entry is appended (JS object-literal semantics). -/
def setKey (fs : List (String × Json)) (k : String) (v : Json) : List (String × Json) :=
  if fs.any (fun p => decide (p.1 = k)) then fs.map (fun p => if p.1 = k then (k, v) else p)
  else fs ++ [(k, v)]

/-- `("0", x₀) :: ("1", x₁) :: ...` — index properties contributed by
spreading an array. -/
def indexJson : List Json → Nat → List (String × Json)
  | [], _ => []
  | x :: t, i => (toString i, x) :: indexJson t (i + 1)

/-- Index properties contributed by spreading a string: one single-character
string per character. -/
def indexStr : List Char → Nat → List (String × Json)
  | [], _ => []
  | c :: t, i => (toString i, Json.str (String.mk [c])) :: indexStr t (i + 1)

/-- Own enumerable properties contributed by `{...payload}` for each kind of
JSON value: objects spread their entries, arrays and strings their indexed
elements/characters, and `null`/booleans/numbers contribute nothing. -/
def spreadFields : Json → List (String × Json)
  | .obj fs => fs
  | .arr xs => indexJson xs 0
  | .str s => indexStr s.toList 0
  | _ => []

/-- Lines 123–127: `{ ...payload, _ingested_at: now, _source: "arduino-serial" }`
where `now` is the ISO-8601 rendering of the current time
(`new Date().toISOString()`), passed in as a string. -/
def enrich (payload : Json) (now : String) : List (String × Json) :=
  setKey (setKey (spreadFields payload) "_ingested_at" (Json.str now))
    "_source" (Json.str "arduino-serial")

/-! ## Configuration (lines 20–28) -/

/-- The numeric CONFIG fields the retry logic reads. -/
structure Config where
  CONNECT_RETRY_MS : Nat
  POST_TIMEOUT_MS : Nat
  MAX_POST_RETRIES : Nat

/-- The hard-coded defaults of CONFIG. -/
def defaultConfig : Config := ⟨3000, 5000, 3⟩

/-- JS `parseInt(s, 10)`: skip leading whitespace, optional sign, then the
longest run of leading decimal digits; no digits means `NaN`, modelled as
`none`. Trailing garbage is ignored. -/
def parseIntJs (s : String) : Option Int :=
  let cs := s.toList.dropWhile Char.isWhitespace
  let signed : Bool × List Char :=
    match cs with
    | '-' :: t => (true, t)
    | '+' :: t => (false, t)
    | t => (false, t)
  let digits := signed.2.takeWhile Char.isDigit
  if digits.isEmpty then none
  else
    let n : Nat := digits.foldl (fun acc c => acc * 10 + (c.toNat - '0'.toNat)) 0
    some (if signed.1 then -(n : Int) else (n : Int))

/-- Line 22: `SERIAL_BAUD: parseInt(process.env.SERIAL_BAUD || "115200", 10)`.
`none` models a `NaN` baud rate. -/
def mkSerialBaud (env : Option String) : Option Int := parseIntJs (env.getD "115200")

/-! ## Auto-detection (lines 36–53) -/

/-- One entry of `SerialPort.list()`; every field may be `undefined`. -/
structure PortInfo where
  manufacturer : Option String
  friendlyName : Option String
  path : Option String
deriving DecidableEq

/-- Line 42: the template string
`` `${p.manufacturer || ""} ${p.friendlyName || ""} ${p.path || ""}` ``. -/
def portDesc (p : PortInfo) : String :=
  (p.manufacturer.getD "") ++ " " ++ (p.friendlyName.getD "") ++ " " ++ (p.path.getD "")

/-- `pat.isPrefixOf`-based substring test (is `pat` a contiguous sub-list of
the haystack?). -/
def containsSub (pat : List Char) : List Char → Bool
  | [] => pat.isEmpty
  | c :: t => pat.isPrefixOf (c :: t) || containsSub pat t

/-- The regex test `/arduino|wch|usb/i.test s`: case-insensitive substring
search for any of the three alternatives. -/
def testArduinoRe (s : String) : Bool :=
  let cs := s.toList.map Char.toLower
  containsSub "arduino".toList cs || containsSub "wch".toList cs || containsSub "usb".toList cs

/-- The regex test `/^COM\d+$/i.test s`: the whole string is `COM` followed by
one or more decimal digits, case-insensitively. -/
def testComRe (s : String) : Bool :=
  match s.toList.map Char.toLower with
  | 'c' :: 'o' :: 'm' :: rest => !rest.isEmpty && rest.all Char.isDigit
  | _ => false

/-- Lines 36–53, `autoDetectPort`. `listResult = none` models
`SerialPort.list()` throwing (the `catch` ignores the error and falls through
to the `"COM3"` fallback). The returned `Option String` is the JS return
value, `none` standing for `undefined` (a preferred device with no `path`). -/
def autoDetectPort (listResult : Option (List PortInfo)) : Option String :=
  match listResult with
  | none => some "COM3"
  | some ports =>
    match ports.find? (fun p => testArduinoRe (portDesc p)) with
    | some preferred => preferred.path
    | none =>
      match ports.find? (fun p => testComRe (p.path.getD "")) with
      | some com => com.path
      | none => some "COM3"

/-! ## Delivery with retries (lines 138–156) -/

/-- Outcome of one `axios.post` attempt: an HTTP status, a transport-level
error, or a timeout. -/
inductive HttpOutcome where
  | status (s : Nat)
  | transportError
  | timeout
deriving DecidableEq

/-- Line 143: `validateStatus: (s) => s >= 200 && s < 300`. -/
def validateStatus (s : Nat) : Bool := decide (200 ≤ s) && decide (s < 300)

/-- An attempt resolves (does not throw) exactly when it yields a status
accepted by `validateStatus`; transport errors and timeouts throw. -/
def attemptOk : HttpOutcome → Bool
  | .status s => validateStatus s
  | .transportError => false
  | .timeout => false

/-- Observable result of `postWithRetries`: number of POST attempts made,
the `sleep` durations between attempts in order, and whether the final
attempt succeeded (`ok = false` means the last attempt's error was
re-thrown to the caller). -/
structure PostResult where
  attempts : Nat
  waits : List Int
  ok : Bool
deriving DecidableEq

/-- Lines 138–156, `postWithRetries(data, retriesLeft)`. The source guard
`retriesLeft > 0` becomes the pattern split on `retriesLeft`; `attempt`
threads the global attempt index consumed by the `transport` oracle.
`wait = POST_TIMEOUT_MS * (MAX_POST_RETRIES - retriesLeft + 1)` is computed
in `Int` (JS numbers do not truncate subtraction). -/
def postWithRetries (cfg : Config) (transport : Nat → HttpOutcome)
    (data : List (String × Json)) : Nat → Nat → PostResult
  | 0, attempt =>
    if attemptOk (transport attempt) then ⟨1, [], true⟩ else ⟨1, [], false⟩
  | r + 1, attempt =>
    if attemptOk (transport attempt) then ⟨1, [], true⟩
    else
      let wait : Int :=
        (cfg.POST_TIMEOUT_MS : Int) * ((cfg.MAX_POST_RETRIES : Int) - ((r : Int) + 1) + 1)
      let rest := postWithRetries cfg transport data r (attempt + 1)
      ⟨rest.attempts + 1, wait :: rest.waits, rest.ok⟩

/-! ## The per-line data handler (lines 110–135) -/

/-- The console output lines the claims talk about: the
`"[parse] Invalid JSON line, skipping:" trimmed` error and the
`"[post] Failed after retries"` error of the handler's catch. -/
inductive LogEvent where
  | parseError (raw : String)
  | postFailed
deriving DecidableEq

/-- JS `String.prototype.trim` on the ASCII whitespace the device can emit. -/
def trimChars (cs : List Char) : List Char :=
  ((cs.dropWhile Char.isWhitespace).reverse.dropWhile Char.isWhitespace).reverse

/-- Line 111: `(line || "").toString().trim()`. -/
def jsTrim (s : String) : String := String.mk (trimChars s.toList)

/-- Observable behaviour of one invocation of the `parser.on("data", ...)`
handler: console output, number of POST attempts, the body handed to
`postWithRetries` (if any), and the retry waits. -/
structure HandlerResult where
  logs : List LogEvent
  posts : Nat
  postedBody : Option (List (String × Json))
  waits : List Int

/-- Lines 110–135: trim; drop empty lines; `JSON.parse` (the `parse` oracle)
with failure logged and the line skipped; enrich; `postWithRetries` with
`CONFIG.MAX_POST_RETRIES`, whose final error is caught and logged, never
re-thrown out of the handler. -/
def handleLine (cfg : Config) (parse : String → Option Json) (now : String)
    (transport : Nat → HttpOutcome) (line : String) : HandlerResult :=
  let trimmed := jsTrim line
  if trimmed = "" then ⟨[], 0, none, []⟩
  else
    match parse trimmed with
    | none => ⟨[.parseError trimmed], 0, none, []⟩
    | some payload =>
      let enriched := enrich payload now
      let r := postWithRetries cfg transport enriched cfg.MAX_POST_RETRIES 0
      ⟨if r.ok then [] else [.postFailed], r.attempts, some enriched, r.waits⟩

/-- The handler is installed once per connection and is stateless across
lines: a stream of lines is processed line by line. -/
def processLines (cfg : Config) (parse : String → Option Json) (now : String)
    (transport : Nat → HttpOutcome) (lines : List String) : List HandlerResult :=
  lines.map (handleLine cfg parse now transport)

/-! ## Connection supervisor (lines 82–94) -/

/-- Connection lifecycle states of the supervisor. -/
inductive ConnState where
  | Disconnected
  | Connecting
  | Open
deriving DecidableEq

/-- Observable events of `ensureOpen`: state transitions, `sleep` waits, and
the start of the line stream (`port.pipe(new ReadlineParser(...))` plus
`wireHandlers()`, which happen only after a successful open). -/
inductive SupEvent where
  | state (s : ConnState)
  | wait (ms : Nat)
  | streamStart
deriving DecidableEq

/-- One failed iteration of the `ensureOpen` loop: the open attempt
(`Connecting`), the failure (`Disconnected`), and the
`sleep(CONFIG.CONNECT_RETRY_MS)` before the next attempt. -/
def reconnectBlock (delay : Nat) : List SupEvent :=
  [.state .Connecting, .state .Disconnected, .wait delay]

/-- `n` consecutive failed open iterations. -/
def repeatBlocks (delay : Nat) : Nat → List SupEvent
  | 0 => []
  | n + 1 => reconnectBlock delay ++ repeatBlocks delay n

/-- Lines 83–93, the body of `while (true)`: try `openPort()` (outcome given
by the `openOk` oracle at the current attempt index); on success pipe the
parser, wire the handlers and break; on failure sleep `CONNECT_RETRY_MS` and
loop. `fuel` bounds the observed iterations of the infinite loop; exhausted
fuel truncates the trace. -/
def ensureOpenAux (delay : Nat) (openOk : Nat → Bool) : Nat → Nat → List SupEvent
  | 0, _ => []
  | fuel + 1, a =>
    if openOk a then [.state .Connecting, .state .Open, .streamStart]
    else .state .Connecting :: .state .Disconnected :: .wait delay ::
      ensureOpenAux delay openOk fuel (a + 1)

/-- `ensureOpen` as called from `main`: the process starts disconnected, then
runs the open loop from attempt 0. -/
def ensureOpenEvents (delay : Nat) (openOk : Nat → Bool) (fuel : Nat) : List SupEvent :=
  .state .Disconnected :: ensureOpenAux delay openOk fuel 0

/-- Is this event an open attempt (entering `Connecting`)? -/
def isConnecting : SupEvent → Bool
  | .state .Connecting => true
  | _ => false

/-- Is this event a reconnect-delay wait? -/
def isWaitEvent : SupEvent → Bool
  | .wait _ => true
  | _ => false

/-- Is this event the start of the line stream? -/
def isStreamStart : SupEvent → Bool
  | .streamStart => true
  | _ => false

/-! ## Process lifecycle (lines 158–182) -/

/-- Steps the top-level `main` IIFE performs, in order. -/
inductive MainStep where
  | log (msg : String)
  | connectLoop
  | exitProcess (code : Nat)
deriving DecidableEq

/-- Rendering of the baud rate in the startup log (`NaN` when the
environment value did not parse). -/
def renderBaud : Option Int → String
  | none => "NaN"
  | some n => toString n

/-- Is this step a `process.exit` call? -/
def isExitStep : MainStep → Bool
  | .exitProcess _ => true
  | _ => false

/-- Lines 175–182, `main`: three `console.log` calls and then
`await ensureOpen()`. There is no configuration validation and no
`process.exit` on this path, whatever the parsed baud rate is. -/
def mainSteps (apiUrl serialPortSel : String) (baud : Option Int) : List MainStep :=
  [.log "[sys] Starting serial -> FastAPI forwarder",
   .log ("[cfg] API_URL=" ++ apiUrl),
   .log ("[cfg] SERIAL_PORT=" ++ serialPortSel ++
     " (auto-detect will pick Arduino/COM*), BAUD=" ++ renderBaud baud),
   .connectLoop]

/-- Line 165: the SIGINT handler always calls `process.exit(0)`. -/
def sigintExitCode : Nat := 0

/-! ## Association-list lemmas for object-literal semantics -/

theorem any_key_iff (fs : List (String × Json)) (k : String) :
    fs.any (fun p => decide (p.1 = k)) = true ↔ k ∈ keysOf fs := by
  simp [List.any_eq_true, keysOf]

theorem setKey_not_mem (fs : List (String × Json)) (k : String) (v : Json)
    (h : k ∉ keysOf fs) : setKey fs k v = fs ++ [(k, v)] := by
  unfold setKey
  rw [if_neg]
  intro hc
  exact h ((any_key_iff fs k).mp hc)

theorem keysOf_setKey_mem (fs : List (String × Json)) (k : String) (v : Json)
    (h : k ∈ keysOf fs) : keysOf (setKey fs k v) = keysOf fs := by
  unfold setKey
  rw [if_pos ((any_key_iff fs k).mpr h)]
  simp only [keysOf, List.map_map]
  refine List.map_congr_left ?_
  intro p _
  by_cases hb : p.1 = k
  · simp [hb]
  · simp [hb]

theorem getKey_append (l₁ l₂ : List (String × Json)) (k : String) :
    getKey (l₁ ++ l₂) k =
      match getKey l₁ k with
      | some v => some v
      | none => getKey l₂ k := by
  induction l₁ with
  | nil => rfl
  | cons p t ih =>
    obtain ⟨k', v'⟩ := p
    by_cases hk : k' = k
    · simp [getKey, hk]
    · simp [getKey, hk, ih]

theorem getKey_not_mem (fs : List (String × Json)) (k : String)
    (h : k ∉ keysOf fs) : getKey fs k = none := by
  induction fs with
  | nil => rfl
  | cons p t ih =>
    obtain ⟨k', v'⟩ := p
    simp only [keysOf, List.map_cons, List.mem_cons] at h
    push_neg at h
    show (if k' = k then some v' else getKey t k) = none
    rw [if_neg (fun hh => h.1 hh.symm)]
    exact ih h.2

theorem getKey_cons (k' : String) (v' : Json) (t : List (String × Json)) (k : String) :
    getKey ((k', v') :: t) k = if k' = k then some v' else getKey t k := rfl

theorem getKey_map_replace_self (fs : List (String × Json)) (k : String) (v : Json)
    (hm : k ∈ keysOf fs) :
    getKey (fs.map (fun p => if p.1 = k then (k, v) else p)) k = some v := by
  induction fs with
  | nil => simp [keysOf] at hm
  | cons p t ih =>
    obtain ⟨k₀, v₀⟩ := p
    rw [List.map_cons]
    by_cases hb : k₀ = k
    · rw [if_pos (show ((k₀, v₀) : String × Json).1 = k from hb)]
      rw [getKey_cons, if_pos rfl]
    · rw [if_neg (show ¬((k₀, v₀) : String × Json).1 = k from hb)]
      rw [getKey_cons, if_neg hb]
      apply ih
      simp only [keysOf, List.map_cons, List.mem_cons] at hm
      rcases hm with h | h
      · exact absurd h.symm hb
      · exact h

theorem getKey_setKey_self (fs : List (String × Json)) (k : String) (v : Json) :
    getKey (setKey fs k v) k = some v := by
  by_cases hm : k ∈ keysOf fs
  · unfold setKey
    rw [if_pos ((any_key_iff fs k).mpr hm)]
    exact getKey_map_replace_self fs k v hm
  · rw [setKey_not_mem fs k v hm, getKey_append, getKey_not_mem fs k hm]
    simp [getKey]

theorem getKey_map_replace_ne (fs : List (String × Json)) (k : String) (v : Json)
    (k' : String) (h : k' ≠ k) :
    getKey (fs.map (fun p => if p.1 = k then (k, v) else p)) k' = getKey fs k' := by
  induction fs with
  | nil => rfl
  | cons p t ih =>
    obtain ⟨k₀, v₀⟩ := p
    rw [List.map_cons]
    by_cases hb : k₀ = k
    · rw [if_pos (show ((k₀, v₀) : String × Json).1 = k from hb)]
      rw [getKey_cons, if_neg (Ne.symm h), getKey_cons,
        if_neg (fun hh => h (hh.symm.trans hb))]
      exact ih
    · rw [if_neg (show ¬((k₀, v₀) : String × Json).1 = k from hb)]
      rw [getKey_cons, getKey_cons]
      by_cases hk' : k₀ = k'
      · rw [if_pos hk', if_pos hk']
      · rw [if_neg hk', if_neg hk']
        exact ih

theorem getKey_setKey_ne (fs : List (String × Json)) (k : String) (v : Json)
    (k' : String) (h : k' ≠ k) : getKey (setKey fs k v) k' = getKey fs k' := by
  unfold setKey
  by_cases hc : fs.any (fun p => decide (p.1 = k)) = true
  · rw [if_pos hc]
    exact getKey_map_replace_ne fs k v k' h
  · rw [if_neg hc, getKey_append]
    cases hg : getKey fs k'
    · show getKey [(k, v)] k' = none
      rw [getKey_cons, if_neg (Ne.symm h)]
      rfl
    · rfl

theorem keysOf_append (l₁ l₂ : List (String × Json)) :
    keysOf (l₁ ++ l₂) = keysOf l₁ ++ keysOf l₂ := by
  simp [keysOf]

theorem count_keysOf_setKey_self (fs : List (String × Json)) (k : String) (v : Json)
    (h : (keysOf fs).Nodup) : (keysOf (setKey fs k v)).count k = 1 := by
  by_cases hm : k ∈ keysOf fs
  · rw [keysOf_setKey_mem fs k v hm]
    exact List.count_eq_one_of_mem h hm
  · rw [setKey_not_mem fs k v hm, keysOf_append, List.count_append,
      List.count_eq_zero_of_not_mem hm]
    simp [keysOf]

theorem count_keysOf_setKey_ne (fs : List (String × Json)) (k : String) (v : Json)
    (k' : String) (h : k' ≠ k) :
    (keysOf (setKey fs k v)).count k' = (keysOf fs).count k' := by
  by_cases hm : k ∈ keysOf fs
  · rw [keysOf_setKey_mem fs k v hm]
  · rw [setKey_not_mem fs k v hm, keysOf_append, List.count_append]
    have hz : (keysOf [(k, v)]).count k' = 0 :=
      List.count_eq_zero_of_not_mem (by simp [keysOf, h])
    rw [hz, Nat.add_zero]

theorem nodup_keysOf_setKey (fs : List (String × Json)) (k : String) (v : Json)
    (h : (keysOf fs).Nodup) : (keysOf (setKey fs k v)).Nodup := by
  by_cases hm : k ∈ keysOf fs
  · rw [keysOf_setKey_mem fs k v hm]
    exact h
  · rw [setKey_not_mem fs k v hm, keysOf_append]
    refine List.nodup_append.mpr ⟨h, List.nodup_singleton k, ?_⟩
    intro a ha hb
    simp only [keysOf, List.map_cons, List.map_nil, List.mem_singleton] at hb
    exact hm (hb ▸ ha)

/-! ## Enrichment lemmas -/

theorem enrich_obj_no_reserved (fields : List (String × Json)) (t : String)
    (h1 : "_ingested_at" ∉ keysOf fields) (h2 : "_source" ∉ keysOf fields) :
    enrich (.obj fields) t =
      fields ++ [("_ingested_at", Json.str t), ("_source", Json.str "arduino-serial")] := by
  unfold enrich
  rw [show spreadFields (.obj fields) = fields from rfl]
  rw [setKey_not_mem fields _ _ h1]
  rw [setKey_not_mem _ _ _ ?hs]
  case hs =>
    intro hc
    rw [keysOf_append] at hc
    rcases List.mem_append.mp hc with hmem | hmem
    · exact h2 hmem
    · simp only [keysOf, List.map_cons, List.map_nil, List.mem_singleton] at hmem
      exact absurd hmem (by decide)
  rw [List.append_assoc]
  rfl

/-- Unconditional characterization of the reserved fields produced by `enrich`
on an object payload with unique keys: each reserved key occurs exactly once,
with values `t` and `"arduino-serial"`, and the result again has unique keys. -/
theorem enrich_obj_counts (fields : List (String × Json)) (t : String)
    (h : (keysOf fields).Nodup) :
    (keysOf (enrich (.obj fields) t)).count "_ingested_at" = 1 ∧
    (keysOf (enrich (.obj fields) t)).count "_source" = 1 ∧
    getKey (enrich (.obj fields) t) "_ingested_at" = some (Json.str t) ∧
    getKey (enrich (.obj fields) t) "_source" = some (Json.str "arduino-serial") ∧
    (keysOf (enrich (.obj fields) t)).Nodup := by
  unfold enrich
  rw [show spreadFields (.obj fields) = fields from rfl]
  have hn1 : (keysOf (setKey fields "_ingested_at" (Json.str t))).Nodup :=
    nodup_keysOf_setKey _ _ _ h
  refine ⟨?_, ?_, ?_, ?_, ?_⟩
  · rw [count_keysOf_setKey_ne _ _ _ _ (by decide)]
    exact count_keysOf_setKey_self _ _ _ h
  · exact count_keysOf_setKey_self _ _ _ hn1
  · rw [getKey_setKey_ne _ _ _ _ (by decide)]
    exact getKey_setKey_self _ _ _
  · exact getKey_setKey_self _ _ _
  · exact nodup_keysOf_setKey _ _ _ hn1

/-- **C2.** For every decoded object payload (whose own keys avoid the two
reserved names, so that "every field of the original payload plus exactly two
reserved fields" is meaningful) and every timestamp rendering `t`, enrichment
yields exactly the original fields followed by `_ingested_at = t` and
`_source = "arduino-serial"`. The embedding is pure, so the input association
list is unchanged (no mutation). -/
theorem enrich_adds_exactly_reserved (fields : List (String × Json)) (t : String)
    (h1 : "_ingested_at" ∉ keysOf fields) (h2 : "_source" ∉ keysOf fields) :
    enrich (.obj fields) t =
      fields ++ [("_ingested_at", Json.str t), ("_source", Json.str "arduino-serial")] ∧
    getKey (enrich (.obj fields) t) "_ingested_at" = some (Json.str t) ∧
    getKey (enrich (.obj fields) t) "_source" = some (Json.str "arduino-serial") := by
  refine ⟨enrich_obj_no_reserved fields t h1 h2, ?_, ?_⟩
  · unfold enrich
    rw [getKey_setKey_ne _ _ _ _ (by decide)]
    exact getKey_setKey_self _ _ _
  · unfold enrich
    exact getKey_setKey_self _ _ _

theorem enrich_adds_exactly_reserved_witness :
    enrich (.obj [("temp", Json.num 21)]) "2025-01-01T00:00:00.000Z" =
      [("temp", Json.num 21), ("_ingested_at", Json.str "2025-01-01T00:00:00.000Z"),
       ("_source", Json.str "arduino-serial")] :=
  (enrich_adds_exactly_reserved [("temp", Json.num 21)] "2025-01-01T00:00:00.000Z"
    (by decide) (by decide)).1

/-- **C5.** Enriching twice (with timestamps `t1` then `t2`) overwrites rather
than appends: the result carries exactly one `_ingested_at` key, holding the
later timestamp `t2`, and exactly one `_source` key. More generally, for any
object payload with unique keys — including one whose caller supplied its own
`_ingested_at` or `_source` — the enriched result has each reserved key
exactly once, with the system-written value. -/
theorem enrich_overwrites_reserved (fields : List (String × Json)) (t1 t2 : String)
    (h : (keysOf fields).Nodup) :
    ((keysOf (enrich (.obj (enrich (.obj fields) t1)) t2)).count "_ingested_at" = 1 ∧
      getKey (enrich (.obj (enrich (.obj fields) t1)) t2) "_ingested_at" =
        some (Json.str t2) ∧
      (keysOf (enrich (.obj (enrich (.obj fields) t1)) t2)).count "_source" = 1) ∧
    ((keysOf (enrich (.obj fields) t2)).count "_ingested_at" = 1 ∧
      getKey (enrich (.obj fields) t2) "_ingested_at" = some (Json.str t2) ∧
      (keysOf (enrich (.obj fields) t2)).count "_source" = 1) := by
  have hc1 := enrich_obj_counts fields t1 h
  have hc2 := enrich_obj_counts (enrich (.obj fields) t1) t2 hc1.2.2.2.2
  have hc3 := enrich_obj_counts fields t2 h
  exact ⟨⟨hc2.1, hc2.2.2.1, hc2.2.1⟩, hc3.1, hc3.2.2.1, hc3.2.1⟩

theorem enrich_overwrites_reserved_witness :
    getKey
      (enrich (.obj (enrich (.obj [("_ingested_at", Json.str "caller")]) "T1")) "T2")
      "_ingested_at" = some (Json.str "T2") :=
  ((enrich_overwrites_reserved [("_ingested_at", Json.str "caller")] "T1" "T2"
    (by decide)).1).2.1

/-! ## Delivery-retry lemmas -/

/-- The backoff schedule left to spend when `r` retries remain:
`timeout * (MAX - r + 1), ..., timeout * MAX`. -/
def expectedWaits (cfg : Config) (r : Nat) : List Int :=
  (List.range r).map (fun (i : Nat) =>
    (cfg.POST_TIMEOUT_MS : Int) * ((cfg.MAX_POST_RETRIES : Int) - (r : Int) + 1 + (i : Int)))

theorem postWithRetries_allFail_aux (cfg : Config) (transport : Nat → HttpOutcome)
    (data : List (String × Json)) (hfail : ∀ n, attemptOk (transport n) = false) :
    ∀ (r a : Nat),
      postWithRetries cfg transport data r a = ⟨r + 1, expectedWaits cfg r, false⟩ := by
  intro r
  induction r with
  | zero =>
    intro a
    simp [postWithRetries, hfail a, expectedWaits]
  | succ r ih =>
    intro a
    have hstep : postWithRetries cfg transport data (r + 1) a =
        ⟨(postWithRetries cfg transport data r (a + 1)).attempts + 1,
         ((cfg.POST_TIMEOUT_MS : Int) *
             ((cfg.MAX_POST_RETRIES : Int) - ((r : Int) + 1) + 1)) ::
           (postWithRetries cfg transport data r (a + 1)).waits,
         (postWithRetries cfg transport data r (a + 1)).ok⟩ := by
      simp [postWithRetries, hfail a]
    rw [hstep, ih (a + 1)]
    have hw : ((cfg.POST_TIMEOUT_MS : Int) *
          ((cfg.MAX_POST_RETRIES : Int) - ((r : Int) + 1) + 1)) ::
          expectedWaits cfg r = expectedWaits cfg (r + 1) := by
      unfold expectedWaits
      rw [List.range_succ_eq_map, List.map_cons, List.map_map]
      congr 1
      · push_cast
        ring
      · refine List.map_congr_left fun i _ => ?_
        simp only [Function.comp_apply]
        push_cast
        ring
    rw [hw]

theorem one_le_postWithRetries_attempts (cfg : Config) (transport : Nat → HttpOutcome)
    (data : List (String × Json)) (r a : Nat) :
    1 ≤ (postWithRetries cfg transport data r a).attempts := by
  cases r with
  | zero =>
    by_cases h : attemptOk (transport a) <;> simp [postWithRetries, h]
  | succ r =>
    by_cases h : attemptOk (transport a) <;> simp [postWithRetries, h]

/-- **C1.** With `max_retries = R` and a transport that fails on every
attempt, `postWithRetries` — invoked with `retriesLeft = R` as the data
handler does — performs exactly `R + 1` POST attempts, the wait before the
k-th retry is `timeout * k` (a strictly increasing schedule
`timeout*1, ..., timeout*R`), the final attempt's error is re-raised
(`ok = false`), and the data handler catches it and logs
`[post] Failed after retries` instead of throwing. -/
theorem deliver_retry_schedule (cfg : Config) (transport : Nat → HttpOutcome)
    (data : List (String × Json))
    (hfail : ∀ n, attemptOk (transport n) = false)
    (hT : 0 < cfg.POST_TIMEOUT_MS) :
    (postWithRetries cfg transport data cfg.MAX_POST_RETRIES 0).attempts =
      cfg.MAX_POST_RETRIES + 1 ∧
    (postWithRetries cfg transport data cfg.MAX_POST_RETRIES 0).waits =
      (List.range cfg.MAX_POST_RETRIES).map
        (fun (k : Nat) => (cfg.POST_TIMEOUT_MS : Int) * ((k : Int) + 1)) ∧
    (postWithRetries cfg transport data cfg.MAX_POST_RETRIES 0).waits.Chain' (· < ·) ∧
    (postWithRetries cfg transport data cfg.MAX_POST_RETRIES 0).ok = false ∧
    (∀ parse now line payload, jsTrim line ≠ "" → parse (jsTrim line) = some payload →
      (handleLine cfg parse now transport line).posts = cfg.MAX_POST_RETRIES + 1 ∧
      (handleLine cfg parse now transport line).logs = [LogEvent.postFailed]) := by
  have hrun := postWithRetries_allFail_aux cfg transport data hfail cfg.MAX_POST_RETRIES 0
  have hwaits : expectedWaits cfg cfg.MAX_POST_RETRIES =
      (List.range cfg.MAX_POST_RETRIES).map
        (fun (k : Nat) => (cfg.POST_TIMEOUT_MS : Int) * ((k : Int) + 1)) := by
    unfold expectedWaits
    refine List.map_congr_left fun i _ => ?_
    ring
  refine ⟨by rw [hrun], by rw [hrun]; exact hwaits, ?_, by rw [hrun], ?_⟩
  · rw [hrun]
    show List.Chain' (· < ·) (expectedWaits cfg cfg.MAX_POST_RETRIES)
    rw [hwaits]
    refine List.Pairwise.chain' ?_
    refine (List.pairwise_lt_range cfg.MAX_POST_RETRIES).map _ ?_
    intro a b hab
    have ha : (a : Int) < (b : Int) := by exact_mod_cast hab
    have hT' : (0 : Int) < (cfg.POST_TIMEOUT_MS : Int) := by exact_mod_cast hT
    have : (a : Int) + 1 < (b : Int) + 1 := by omega
    exact mul_lt_mul_of_pos_left this hT'
  · intro parse now line payload hne hp
    have hrun' := postWithRetries_allFail_aux cfg transport (enrich payload now) hfail
      cfg.MAX_POST_RETRIES 0
    refine ⟨?_, ?_⟩ <;>
      (simp only [handleLine]; rw [if_neg hne, hp]; simp [hrun'])

theorem deliver_retry_schedule_witness :
    (postWithRetries defaultConfig (fun _ => HttpOutcome.status 500) [] 3 0).attempts = 4 :=
  by exact (deliver_retry_schedule defaultConfig (fun _ => HttpOutcome.status 500) []
    (fun _ => rfl) (by decide)).1

/-- **C7.** A delivery attempt succeeds exactly when the status is 2xx
(`200 ≤ s < 300`); every other status, transport error and timeout makes the
attempt fail, and a failed attempt with retries left takes the retry path
(at least a second attempt is made), while a successful attempt ends the
delivery with a single attempt and no waits. -/
theorem success_iff_2xx :
    (∀ s, attemptOk (.status s) = true ↔ 200 ≤ s ∧ s < 300) ∧
    attemptOk .transportError = false ∧
    attemptOk .timeout = false ∧
    (∀ cfg transport data r a, attemptOk (transport a) = true →
      postWithRetries cfg transport data r a = ⟨1, [], true⟩) ∧
    (∀ cfg transport data r a, attemptOk (transport a) = false →
      2 ≤ (postWithRetries cfg transport data (r + 1) a).attempts) := by
  refine ⟨?_, rfl, rfl, ?_, ?_⟩
  · intro s
    simp [attemptOk, validateStatus]
  · intro cfg transport data r a h
    cases r <;> simp [postWithRetries, h]
  · intro cfg transport data r a h
    simp only [postWithRetries, h, Bool.false_eq_true, if_false]
    have := one_le_postWithRetries_attempts cfg transport data r (a + 1)
    omega

theorem success_iff_2xx_witness :
    2 ≤ (postWithRetries defaultConfig (fun _ => HttpOutcome.status 500) [] 1 0).attempts :=
  success_iff_2xx.2.2.2.2 defaultConfig (fun _ => HttpOutcome.status 500) [] 0 0 rfl

/-! ## Per-line handler claims -/

/-- **C3.** A non-empty trimmed line on which `JSON.parse` fails is logged
(with the line's content) and skipped: no enrichment, no POST, no waits; and
because the handler is stateless per line, a subsequent valid line is
processed exactly as it would be on its own. -/
theorem decode_failure_skips (cfg : Config) (parse : String → Option Json) (now : String)
    (transport : Nat → HttpOutcome) (line : String)
    (hne : jsTrim line ≠ "") (hbad : parse (jsTrim line) = none) :
    handleLine cfg parse now transport line =
      ⟨[LogEvent.parseError (jsTrim line)], 0, none, []⟩ ∧
    (∀ g, processLines cfg parse now transport [line, g] =
      [⟨[LogEvent.parseError (jsTrim line)], 0, none, []⟩,
       handleLine cfg parse now transport g]) := by
  have h1 : handleLine cfg parse now transport line =
      ⟨[LogEvent.parseError (jsTrim line)], 0, none, []⟩ := by
    simp only [handleLine]
    rw [if_neg hne, hbad]
  exact ⟨h1, fun g => by simp [processLines, h1]⟩

theorem decode_failure_skips_witness :
    handleLine defaultConfig (fun _ => none) "T" (fun _ => HttpOutcome.status 200)
      "not json" = ⟨[LogEvent.parseError "not json"], 0, none, []⟩ :=
  by exact (decode_failure_skips defaultConfig (fun _ => none) "T"
    (fun _ => HttpOutcome.status 200) "not json" (by decide) rfl).1

/-- **C10 counterexample.** The claim says a primitive JSON payload
contributes no fields via the spread, so the POST body holds only the two
reserved fields. For the JSON string `"hi"` this is false: the spread of a
string contributes its characters under index keys, so the body has four
fields, not two. -/
theorem nonobject_primitive_body_cex :
    enrich (Json.str "hi") "2025-01-01T00:00:00.000Z" ≠
      [("_ingested_at", Json.str "2025-01-01T00:00:00.000Z"),
       ("_source", Json.str "arduino-serial")] :=
  fun h => absurd (congrArg List.length h) (by decide)

/-- **C10 (amended).** Any successfully parsed JSON value — object or not —
is accepted, enriched and delivered (the POST body is `enrich v now` and at
least one POST attempt is made). `null`, booleans and numbers contribute no
fields via the spread, so their POST body holds exactly the two reserved
fields; an array contributes its elements under index keys ("0", "1", ...),
and a string contributes one single-character field per character under
index keys, before the two reserved fields. -/
theorem nonobject_accepted (cfg : Config) (parse : String → Option Json) (now : String)
    (transport : Nat → HttpOutcome) (line : String) (v : Json)
    (hne : jsTrim line ≠ "") (hok : parse (jsTrim line) = some v) :
    (handleLine cfg parse now transport line).postedBody = some (enrich v now) ∧
    1 ≤ (handleLine cfg parse now transport line).posts ∧
    enrich Json.null now =
      [("_ingested_at", Json.str now), ("_source", Json.str "arduino-serial")] ∧
    (∀ b, enrich (Json.bool b) now =
      [("_ingested_at", Json.str now), ("_source", Json.str "arduino-serial")]) ∧
    (∀ n, enrich (Json.num n) now =
      [("_ingested_at", Json.str now), ("_source", Json.str "arduino-serial")]) ∧
    (∀ x y, enrich (Json.arr [x, y]) now =
      [("0", x), ("1", y), ("_ingested_at", Json.str now),
       ("_source", Json.str "arduino-serial")]) ∧
    enrich (Json.str "hi") now =
      [("0", Json.str "h"), ("1", Json.str "i"), ("_ingested_at", Json.str now),
       ("_source", Json.str "arduino-serial")] := by
  refine ⟨?_, ?_, rfl, fun b => rfl, fun n => rfl, fun x y => rfl, rfl⟩
  · simp only [handleLine]
    rw [if_neg hne, hok]
  · simp only [handleLine]
    rw [if_neg hne, hok]
    exact one_le_postWithRetries_attempts cfg transport (enrich v now)
      cfg.MAX_POST_RETRIES 0

theorem nonobject_accepted_witness :
    (handleLine defaultConfig (fun s => if s = "true" then some (Json.bool true) else none)
      "T" (fun _ => HttpOutcome.status 200) "true").postedBody =
      some [("_ingested_at", Json.str "T"), ("_source", Json.str "arduino-serial")] :=
  by exact (nonobject_accepted defaultConfig
    (fun s => if s = "true" then some (Json.bool true) else none) "T"
    (fun _ => HttpOutcome.status 200) "true" (Json.bool true) (by decide) (by rfl)).1

/-! ## Connection-supervisor claims -/

theorem ensureOpenAux_fail_steps (delay : Nat) (openOk : Nat → Bool) :
    ∀ (n a fuel : Nat), (∀ i, i < n → openOk (a + i) = false) →
      ensureOpenAux delay openOk (n + fuel) a =
        repeatBlocks delay n ++ ensureOpenAux delay openOk fuel (a + n) := by
  intro n
  induction n with
  | zero =>
    intro a fuel _
    simp [repeatBlocks]
  | succ n ih =>
    intro a fuel h
    have h0 : openOk a = false := by simpa using h 0 (Nat.succ_pos n)
    have ih' := ih (a + 1) fuel (fun i hi => by
      have hh := h (i + 1) (Nat.succ_lt_succ hi)
      rwa [show a + (i + 1) = a + 1 + i from by omega] at hh)
    rw [show n + 1 + fuel = (n + fuel) + 1 from by omega]
    simp only [ensureOpenAux, h0, Bool.false_eq_true, if_false]
    rw [ih']
    simp only [repeatBlocks, reconnectBlock]
    rw [show a + 1 + n = a + (n + 1) from by omega]
    simp

theorem countP_repeatBlocks (delay : Nat) (p : SupEvent → Bool) :
    ∀ n, (repeatBlocks delay n).countP p = n * (reconnectBlock delay).countP p := by
  intro n
  induction n with
  | zero => simp [repeatBlocks]
  | succ n ih =>
    simp only [repeatBlocks, List.countP_append, ih]
    ring

/-- **C4.** If the first `N` open attempts fail and attempt `N` succeeds, the
supervisor produces exactly the event trace
`Disconnected, (Connecting, Disconnected, wait delay) × N, Connecting, Open,
streamStart`: `N + 1` open attempts, `N` waits of the configured reconnect
delay between them, and the line stream starts only once, as the very last
event — after the successful open. -/
theorem reconnect_liveness (delay : Nat) (openOk : Nat → Bool) (N : Nat)
    (hfail : ∀ i, i < N → openOk i = false) (hsucc : openOk N = true) :
    ensureOpenEvents delay openOk (N + 1) =
      SupEvent.state ConnState.Disconnected ::
        (repeatBlocks delay N ++
          [SupEvent.state ConnState.Connecting, SupEvent.state ConnState.Open,
           SupEvent.streamStart]) ∧
    (ensureOpenEvents delay openOk (N + 1)).countP isConnecting = N + 1 ∧
    (ensureOpenEvents delay openOk (N + 1)).countP isWaitEvent = N ∧
    (ensureOpenEvents delay openOk (N + 1)).countP isStreamStart = 1 ∧
    (ensureOpenEvents delay openOk (N + 1)).getLast? = some SupEvent.streamStart := by
  have hmain : ensureOpenEvents delay openOk (N + 1) =
      SupEvent.state ConnState.Disconnected ::
        (repeatBlocks delay N ++
          [SupEvent.state ConnState.Connecting, SupEvent.state ConnState.Open,
           SupEvent.streamStart]) := by
    unfold ensureOpenEvents
    rw [ensureOpenAux_fail_steps delay openOk N 0 1 (by simpa using hfail)]
    rw [Nat.zero_add]
    simp [ensureOpenAux, hsucc]
  refine ⟨hmain, ?_, ?_, ?_, ?_⟩
  · rw [hmain]
    simp [List.countP_cons, List.countP_append, countP_repeatBlocks,
      isConnecting, reconnectBlock]
  · rw [hmain]
    simp [List.countP_cons, List.countP_append, countP_repeatBlocks,
      isWaitEvent, reconnectBlock]
  · rw [hmain]
    simp [List.countP_cons, List.countP_append, countP_repeatBlocks,
      isStreamStart, reconnectBlock]
  · rw [hmain]
    rw [show SupEvent.state ConnState.Disconnected ::
        (repeatBlocks delay N ++
          [SupEvent.state ConnState.Connecting, SupEvent.state ConnState.Open,
           SupEvent.streamStart]) =
        (SupEvent.state ConnState.Disconnected ::
          (repeatBlocks delay N ++
            [SupEvent.state ConnState.Connecting, SupEvent.state ConnState.Open])) ++
          [SupEvent.streamStart] from by simp]
    exact List.getLast?_concat _

theorem reconnect_liveness_witness :
    (ensureOpenEvents 3000 (fun i => decide (2 ≤ i)) 3).countP isConnecting = 3 :=
  by exact (reconnect_liveness 3000 (fun i => decide (2 ≤ i)) 2
    (by decide) (by decide)).2.1

/-- **C8.** There is no maximum reconnect attempt count: for every `n`, if
the first `n` open attempts fail, the supervisor still reaches an
`(n+1)`-th open attempt, with a wait of the fixed reconnect delay before it
(the `n`-th repeated block ends in `wait delay`), and the trace stays a
plain event list — a failed open never surfaces as a process failure. -/
theorem unbounded_reconnect (delay : Nat) (openOk : Nat → Bool) (n : Nat)
    (hfail : ∀ i, i < n → openOk i = false) :
    (∃ rest, ensureOpenEvents delay openOk (n + 1) =
      SupEvent.state ConnState.Disconnected ::
        (repeatBlocks delay n ++ SupEvent.state ConnState.Connecting :: rest)) ∧
    (ensureOpenEvents delay openOk (n + 1)).countP isConnecting = n + 1 := by
  have hsplit : ensureOpenAux delay openOk (n + 1) 0 =
      repeatBlocks delay n ++ ensureOpenAux delay openOk 1 n := by
    have hh := ensureOpenAux_fail_steps delay openOk n 0 1 (by simpa using hfail)
    rwa [Nat.zero_add] at hh
  constructor
  · by_cases hn : openOk n = true
    · refine ⟨[SupEvent.state ConnState.Open, SupEvent.streamStart], ?_⟩
      unfold ensureOpenEvents
      rw [hsplit]
      simp [ensureOpenAux, hn]
    · rw [Bool.not_eq_true] at hn
      refine ⟨[SupEvent.state ConnState.Disconnected, SupEvent.wait delay], ?_⟩
      unfold ensureOpenEvents
      rw [hsplit]
      simp [ensureOpenAux, hn]
  · unfold ensureOpenEvents
    rw [hsplit]
    by_cases hn : openOk n = true
    · simp [ensureOpenAux, hn, List.countP_cons, List.countP_append,
        countP_repeatBlocks, isConnecting, reconnectBlock]
    · rw [Bool.not_eq_true] at hn
      simp [ensureOpenAux, hn, List.countP_cons, List.countP_append,
        countP_repeatBlocks, isConnecting, reconnectBlock]

theorem unbounded_reconnect_witness :
    (ensureOpenEvents 3000 (fun _ => false) 3).countP isConnecting = 3 :=
  by exact (unbounded_reconnect 3000 (fun _ => false) 2 (fun _ _ => rfl)).2

/-! ## Auto-detection claim -/

/-- **C6.** When the device selector is `"auto"`: a device whose combined
manufacturer/friendlyName/path metadata matches `/arduino|wch|usb/i` is
preferred (its path is returned); otherwise a device whose path fully matches
`/^COM\d+$/i` is chosen; otherwise the fixed default `"COM3"`. Enumeration
failure (the `catch` path) also yields `"COM3"`. `autoDetectPort` is a total
function — discovery never raises. -/
theorem auto_detect_policy (ports : List PortInfo) :
    autoDetectPort none = some "COM3" ∧
    (∀ p, ports.find? (fun q => testArduinoRe (portDesc q)) = some p →
      autoDetectPort (some ports) = p.path) ∧
    (ports.find? (fun q => testArduinoRe (portDesc q)) = none →
      ∀ c, ports.find? (fun q => testComRe (q.path.getD "")) = some c →
        autoDetectPort (some ports) = c.path) ∧
    (ports.find? (fun q => testArduinoRe (portDesc q)) = none →
      ports.find? (fun q => testComRe (q.path.getD "")) = none →
      autoDetectPort (some ports) = some "COM3") := by
  refine ⟨rfl, ?_, ?_, ?_⟩
  · intro p hp
    simp [autoDetectPort, hp]
  · intro h c hc
    simp [autoDetectPort, h, hc]
  · intro h hc
    simp [autoDetectPort, h, hc]

theorem auto_detect_policy_witness :
    autoDetectPort (some [⟨some "Arduino LLC", none, some "COM7"⟩]) = some "COM7" :=
  by exact (auto_detect_policy [⟨some "Arduino LLC", none, some "COM7"⟩]).2.1
       ⟨some "Arduino LLC", none, some "COM7"⟩ (by rfl)

/-! ## Startup / shutdown claim -/

/-- **C9 counterexample.** The claim says malformed configuration (a
non-numeric baud rate) causes an immediate non-zero exit before any
connection attempt. In the code, `SERIAL_BAUD=abc` merely parses to `NaN`
(`mkSerialBaud (some "abc") = none`): `main` performs no validation, contains
no `process.exit` step, and still enters the connection loop; the SIGINT exit
code is the only exit and it is 0. -/
theorem startup_no_exit_cex :
    mkSerialBaud (some "abc") = none ∧
    (mainSteps "http://127.0.0.1:8000/telemetry" "auto"
      (mkSerialBaud (some "abc"))).countP isExitStep = 0 ∧
    MainStep.connectLoop ∈
      mainSteps "http://127.0.0.1:8000/telemetry" "auto" (mkSerialBaud (some "abc")) ∧
    sigintExitCode = 0 := by
  decide

/-- **C9 (amended).** The script performs no startup validation at all:
whatever the baud setting parsed to (including `NaN` from a non-numeric
value), `main` only logs and enters the connection loop — its step list
contains no `process.exit` — and the only exit path in the program is the
SIGINT handler, which always exits with code 0. -/
theorem startup_never_exits (apiUrl serialPortSel : String) (baud : Option Int) :
    (mainSteps apiUrl serialPortSel baud).countP isExitStep = 0 ∧
    MainStep.connectLoop ∈ mainSteps apiUrl serialPortSel baud ∧
    sigintExitCode = 0 := by
  refine ⟨?_, ?_, rfl⟩
  · simp [mainSteps, List.countP_cons, isExitStep]
  · simp [mainSteps]

end LerSerial
